import Mathlib

/-!
Shallow embedding of the dotg noise-injection pipeline and error-model
extraction layer:

* `src/dotg/utilities/_circuit_layers.py`  (`get_circuit_layers`)
* `src/dotg/noise/_noise_model.py`         (`NoiseModel`)
* `src/dotg/utilities/_check_matrices.py`  (`CircuitUnderstander`)
* `src/dotg/utilities/_syndrome_sampler.py` (`check_if_noisy_circuit`, `Sampler`)

Circuits are modelled, following the data model of the specification and the
behaviour of the underlying stim library, as lists of instructions; an
instruction is a name, a list of integer targets (`GateTarget.value`), and a
list of rational arguments (Python floats are modelled as rationals).
Python exceptions are modelled with `Except PyErr`.

The enum classes (`OneQubitGates`, `StimDecorators`, ...) are embedded as the
lists of strings their `members()` classmethod returns; enum members compared
or appended by the source are embedded as their string values, which is the
semantics the package's own tests rely on.
-/

namespace Dotg

/-- Python exceptions that the embedded code can raise. -/
inductive PyErr where
  | valueError (msg : String)
  | runtimeError (msg : String)
  | indexError (msg : String)
deriving DecidableEq, Repr

/-- A stim circuit instruction: a name, qubit/record targets (the integer
`value` of each stim `GateTarget`), and numeric gate arguments. -/
structure Instruction where
  name : String
  targets : List Int
  args : List ℚ
deriving DecidableEq, Repr

/-- A stim circuit, modelled as its ordered list of instructions. -/
abbrev Circuit := List Instruction

/-- Values of the `OneQubitGates` enum (`_stim_gates.py`). -/
def OneQubitGatesMembers : List String :=
  ["I", "X", "Y", "Z", "H", "S", "S_DAG", "SQRT_X", "SQRT_X_DAG",
   "SQRT_Y", "SQRT_Y_DAG", "SQRT_Z", "SQRT_Z_DAG"]

/-- Values of the `TwoQubitGates` enum. `CNOT = "CX"` is a Python enum alias
of `CX`, so iteration (hence `members()`) yields it only once. -/
def TwoQubitGatesMembers : List String := ["CX", "CY", "CZ", "SQRT_XX"]

/-- Values of the `ResetGates` enum. -/
def ResetGatesMembers : List String := ["R", "RX", "RZ", "RY"]

/-- Values of the `MeasurementGates` enum. -/
def MeasurementGatesMembers : List String := ["M", "MX", "MZ", "MY"]

/-- Values of the `MeasureAndReset` enum. -/
def MeasureAndResetMembers : List String := ["MR"]

/-- Values of the `StimDecorators` enum (`_stim_decorators.py`). -/
def StimDecoratorsMembers : List String :=
  ["DETECTOR", "OBSERVABLE_INCLUDE", "QUBIT_COORDS", "TICK"]

/-- Values of the `OneQubitNoiseChannels` enum (`_stim_noise_channels.py`). -/
def OneQubitNoiseChannelsMembers : List String :=
  ["DEPOLARIZE1", "PAULI_CHANNEL_1", "X_ERROR", "Y_ERROR", "Z_ERROR"]

/-- Values of the `TwoQubitNoiseChannels` enum. -/
def TwoQubitNoiseChannelsMembers : List String :=
  ["DEPOLARIZE2", "PAULI_CHANNEL_2"]

/-- A noise parameter: either a bare probability or a tuple of probabilities
(the `NoiseParam` type alias `float | Tuple[float]` of `_noise_model.py`). -/
inductive NoiseParam where
  | scalar (p : ℚ)
  | tuple (ps : List ℚ)
deriving DecidableEq, Repr

/-- Python truthiness of a noise parameter: a float is truthy iff nonzero, a
tuple is truthy iff non-empty.  This is the test `if self._..._parameter:`
that guards every noise-channel emission in the source. -/
def NoiseParam.truthy : NoiseParam → Bool
  | .scalar p => p ≠ 0
  | .tuple ps => ps ≠ []

/-- The gate-argument list passed to `stim.Circuit.append` for a parameter:
a scalar becomes a single argument, a tuple becomes the argument list. -/
def NoiseParam.toArgs : NoiseParam → List ℚ
  | .scalar p => [p]
  | .tuple ps => ps

/-- State of a constructed `NoiseModel` (`_noise_model.py`): a channel name
and parameter per slot, plus the measurement-flip scalar. -/
structure NoiseModel where
  two_qubit_gate_noise_channel : String
  two_qubit_gate_noise_parameter : NoiseParam
  one_qubit_gate_noise_channel : String
  one_qubit_gate_noise_parameter : NoiseParam
  reset_noise_channel : String
  reset_noise_parameter : NoiseParam
  idle_noise_channel : String
  idle_noise_parameter : NoiseParam
  measurement_noise_parameter : ℚ
deriving DecidableEq, Repr

/-- Test `isinstance(_param, float | int) and not 0 <= _param < 1` from
`_is_legal_noise_model`: the range check applies to scalar parameters only. -/
def NoiseParam.scalarOutOfRange : NoiseParam → Bool
  | .scalar p => ¬(0 ≤ p ∧ p < 1)
  | .tuple _ => false

/-- Test `(not isinstance(_param, tuple)) or (len(_param) not in [3, 15])`
from `_is_legal_noise_model`: the source accepts a tuple of length 3 or 15
for either biased channel. -/
def NoiseParam.badBiasedTuple : NoiseParam → Bool
  | .scalar _ => true
  | .tuple ps => ps.length ≠ 3 ∧ ps.length ≠ 15

/-- Validation of one noise-slot argument inside
`NoiseModel._is_legal_noise_model`: a channel/slot pairing check, a range
check for scalar parameters, then the biased-channel tuple check. -/
def checkNoiseArg (isTwoQubitSlot : Bool) (arg : Option (String × NoiseParam)) :
    Except PyErr Unit :=
  match arg with
  | none => Except.ok ()
  | some (channel, param) =>
    if (isTwoQubitSlot ∧ channel ∉ TwoQubitNoiseChannelsMembers) ∨
       (¬isTwoQubitSlot ∧ channel ∉ OneQubitNoiseChannelsMembers) then
      Except.error (.valueError ("Invalid gate/noise pairing: " ++ channel))
    else if param.scalarOutOfRange then
      Except.error (.valueError ("Invalid noise parameter passed for channel " ++ channel))
    else if (channel = "PAULI_CHANNEL_1" ∨ channel = "PAULI_CHANNEL_2") ∧
            param.badBiasedTuple then
      Except.error (.valueError
        "stim noise channels PAULI_CHANNEL_1 and PAULI_CHANNEL_2 must be accompanied with tuple of floats of lengths 3 and 15 respectively.")
    else
      Except.ok ()

/-- Embeds `NoiseModel._is_legal_noise_model`: the four channel slots are
checked in keyword order, then the measurement-flip range. -/
def is_legal_noise_model
    (two_qubit_gate_noise one_qubit_gate_noise reset_noise idle_noise :
      Option (String × NoiseParam))
    (measurement_noise : ℚ) : Except PyErr Unit := do
  _ ← checkNoiseArg true two_qubit_gate_noise
  _ ← checkNoiseArg false one_qubit_gate_noise
  _ ← checkNoiseArg false reset_noise
  _ ← checkNoiseArg false idle_noise
  if ¬(0 ≤ measurement_noise ∧ measurement_noise < 1) then
    Except.error (.valueError "Invalid measurement flip value given")
  else
    Except.ok ()

/-- Embeds `NoiseModel.__init__`: validate, then fill each absent slot with
its default channel and zero parameter. -/
def NoiseModel.construct
    (two_qubit_gate_noise one_qubit_gate_noise reset_noise idle_noise :
      Option (String × NoiseParam))
    (measurement_noise : ℚ) : Except PyErr NoiseModel := do
  _ ← is_legal_noise_model two_qubit_gate_noise one_qubit_gate_noise
        reset_noise idle_noise measurement_noise
  let (c2, p2) := two_qubit_gate_noise.getD ("DEPOLARIZE2", .scalar 0)
  let (c1, p1) := one_qubit_gate_noise.getD ("DEPOLARIZE1", .scalar 0)
  let (cr, pr) := reset_noise.getD ("DEPOLARIZE1", .scalar 0)
  let (ci, pi) := idle_noise.getD ("DEPOLARIZE1", .scalar 0)
  Except.ok ⟨c2, p2, c1, p1, cr, pr, ci, pi, measurement_noise⟩

/-- Embeds `get_circuit_layers` (`_circuit_layers.py`): the source cuts the
instruction list immediately after every TICK instruction and keeps the
trailing remainder (possibly empty) as the final layer; each layer is then
rebuilt by appending its instructions unchanged. -/
def get_circuit_layers : Circuit → List Circuit
  | [] => [[]]
  | instr :: rest =>
    if instr.name = "TICK" then
      [instr] :: get_circuit_layers rest
    else
      match get_circuit_layers rest with
      | [] => [[instr]]
      | l :: ls => (instr :: l) :: ls

/-- Embeds `NoiseModel._measurement_and_reset_instruction`: append a
measurement carrying the measurement-flip parameter, a TICK, a reset, and
(if the reset parameter is truthy) the reset-noise channel, all on the
instruction's targets.  The source appends the names `MeasurementGates.MZ`
and `ResetGates.RZ`, which stim stores under their canonical names `M` and
`R`. -/
def NoiseModel.measurement_and_reset_instruction (nm : NoiseModel)
    (circuit : Circuit) (instruction : Instruction) : Circuit :=
  let c := circuit ++
    [⟨"M", instruction.targets, [nm.measurement_noise_parameter]⟩,
     ⟨"TICK", [], []⟩,
     ⟨"R", instruction.targets, []⟩]
  if nm.reset_noise_parameter.truthy then
    c ++ [⟨nm.reset_noise_channel, instruction.targets,
           nm.reset_noise_parameter.toArgs⟩]
  else
    c

/-- Embeds `NoiseModel._measurement_instruction`: `MR` is delegated to the
measure-and-reset method; any other instruction is re-appended with its
argument overwritten by the measurement-flip parameter. -/
def NoiseModel.measurement_instruction (nm : NoiseModel)
    (circuit : Circuit) (instruction : Instruction) : Circuit :=
  if instruction.name = "MR" then
    nm.measurement_and_reset_instruction circuit instruction
  else
    circuit ++ [⟨instruction.name, instruction.targets,
                 [nm.measurement_noise_parameter]⟩]

/-- Embeds `NoiseModel._gate_instruction`: after a gate instruction, append
the matching noise channel on the same targets for each of the three gate
slots whose gate table contains the instruction name and whose parameter is
truthy. -/
def NoiseModel.gate_instruction (nm : NoiseModel)
    (circuit : Circuit) (instruction : Instruction) : Circuit :=
  let c := circuit
  let c := if instruction.name ∈ OneQubitGatesMembers ∧
              nm.one_qubit_gate_noise_parameter.truthy then
      c ++ [⟨nm.one_qubit_gate_noise_channel, instruction.targets,
             nm.one_qubit_gate_noise_parameter.toArgs⟩]
    else c
  let c := if instruction.name ∈ TwoQubitGatesMembers ∧
              nm.two_qubit_gate_noise_parameter.truthy then
      c ++ [⟨nm.two_qubit_gate_noise_channel, instruction.targets,
             nm.two_qubit_gate_noise_parameter.toArgs⟩]
    else c
  let c := if instruction.name ∈ ResetGatesMembers ∧
              nm.reset_noise_parameter.truthy then
      c ++ [⟨nm.reset_noise_channel, instruction.targets,
             nm.reset_noise_parameter.toArgs⟩]
    else c
  c

/-- The comprehension condition `line.name == StimDecorators.QUBIT_COORDS`
of `NoiseModel.add_idle_noise`. -/
def isQubitCoords (line : Instruction) : Bool :=
  line.name = "QUBIT_COORDS"

/-- The generator body `next(x.value for x in line.targets_copy())` of
`NoiseModel.add_idle_noise`: the first target of a line; a line without
targets makes `next` raise. -/
def firstTarget (line : Instruction) : Except PyErr Int :=
  match line.targets with
  | [] => Except.error (.runtimeError "generator raised StopIteration")
  | t :: _ => Except.ok t

/-- Extraction of the declared qubit indices in `NoiseModel.add_idle_noise`:
`set(next(x.value for x in line.targets_copy()) for line in circuit if
line.name == QUBIT_COORDS)` — the first target of every QUBIT_COORDS
line. -/
def qubitCoordFirstTargets (circuit : Circuit) : Except PyErr (List Int) :=
  (circuit.filter isQubitCoords).mapM firstTarget

/-- The per-layer active-qubit scan of `NoiseModel.add_idle_noise`:
`set(x.value for instr in timeslice for x in instr.targets_copy() if
instr.name)` — the filter `if instr.name` only tests that the name is a
non-empty string, so the targets of every instruction are collected,
structural or not. -/
def activeQubits (timeslice : Circuit) : List Int :=
  (timeslice.filter (fun instr => instr.name ≠ "")).flatMap
    (fun instr => instr.targets)

/-- Insertion of an integer into a sorted list (ascending). -/
def insertSorted (x : Int) : List Int → List Int
  | [] => [x]
  | y :: ys => if x ≤ y then x :: y :: ys else y :: insertSorted x ys

/-- Ascending insertion sort, used to fix a canonical enumeration order for
Python sets of qubit indices. -/
def sortInts (l : List Int) : List Int := l.foldr insertSorted []

/-- One step of the layer loop in `NoiseModel.add_idle_noise`: an empty
timeslice is dropped; otherwise, when some declared qubit is idle and the
idle parameter is truthy, the source splits off the last instruction
(`timeslice[0:-1]`, `timeslice[-1]`), appends the idle-noise channel on the
idle qubits, and re-appends the last instruction.  Python iterates the idle
set in unspecified order; the embedding fixes the ascending enumeration. -/
def NoiseModel.idleStep (nm : NoiseModel) (qubit_indices : List Int)
    (acc : Circuit) (timeslice : Circuit) : Circuit :=
  if timeslice = [] then acc
  else
    let active := activeQubits timeslice
    let idle := sortInts (qubit_indices.filter (fun q => q ∉ active))
    if idle ≠ [] ∧ nm.idle_noise_parameter.truthy then
      acc ++ timeslice.dropLast ++
        [⟨nm.idle_noise_channel, idle, nm.idle_noise_parameter.toArgs⟩] ++
        (timeslice.getLast?.map (fun t => [t])).getD []
    else
      acc ++ timeslice

/-- Embeds `NoiseModel.add_idle_noise`: collect the declared qubit indices
(raising ValueError when there are none), split the circuit into layers,
and rebuild it layer by layer through `idleStep`. -/
def NoiseModel.add_idle_noise (nm : NoiseModel) (circuit : Circuit) :
    Except PyErr Circuit := do
  let firsts ← qubitCoordFirstTargets circuit
  let qubit_indices := firsts.dedup
  if qubit_indices = [] then
    Except.error (.valueError
      "You must define qubit entries for idle noise to be applied, otherwise stim has no way of knowing how many qubits are involved in the experiment. Add QUBIT_COORDS commands to the beginning of the circuit.")
  else
    Except.ok ((get_circuit_layers circuit).foldl (nm.idleStep qubit_indices) [])

/-- The body of the instruction loop in `NoiseModel.permute_circuit`,
dispatching on the instruction name exactly as the source does. -/
def NoiseModel.permuteStep (nm : NoiseModel) (acc : Circuit)
    (instr : Instruction) : Circuit :=
  if instr.name ∈ MeasureAndResetMembers then
    nm.measurement_and_reset_instruction acc instr
  else if instr.name ∈ MeasurementGatesMembers then
    nm.measurement_instruction acc instr
  else
    let acc := acc ++ [instr]
    if instr.name ∈ StimDecoratorsMembers then
      acc
    else
      nm.gate_instruction acc instr

/-- The full instruction pass of `NoiseModel.permute_circuit` before the
idle-noise stage. -/
def NoiseModel.permuteBody (nm : NoiseModel) (circuit : Circuit) : Circuit :=
  circuit.foldl nm.permuteStep []

/-- Embeds `NoiseModel.permute_circuit`: run the instruction pass, then the
idle-noise pass when the idle parameter is truthy. -/
def NoiseModel.permute_circuit (nm : NoiseModel) (circuit : Circuit) :
    Except PyErr Circuit :=
  let noisy := nm.permuteBody circuit
  if nm.idle_noise_parameter.truthy then
    nm.add_idle_noise noisy
  else
    Except.ok noisy

/-- A target of a detector-error-model event: a relative detector id, a
logical observable id, or the `^` separator. -/
inductive DemTarget where
  | detector (val : Nat)
  | observable (val : Nat)
  | separator
deriving DecidableEq, Repr

/-- Test `x.is_relative_detector_id()` and extract `x.val`. -/
def DemTarget.detectorVal : DemTarget → Option Nat
  | .detector v => some v
  | _ => none

/-- Test `x.is_logical_observable_id()` and extract `x.val`. -/
def DemTarget.observableVal : DemTarget → Option Nat
  | .observable v => some v
  | _ => none

/-- One instruction of a stim detector error model as iterated by
`for event in dem`: its type string (such as `error` or `detector`), its
targets, and its arguments. -/
structure DemEvent where
  type : String
  targets : List DemTarget
  args : List ℚ
deriving DecidableEq, Repr

/-- A flattened stim detector error model, as consumed by
`CircuitUnderstander._understand_circuit`: the event list plus the
`num_detectors` and `num_observables` attributes the external library
derives from it.  `num_errors` counts the `error` instructions. -/
structure DetectorErrorModel where
  events : List DemEvent
  num_detectors : Nat
  num_observables : Nat
deriving DecidableEq, Repr

/-- The `dem.num_errors` attribute: the number of error instructions. -/
def DetectorErrorModel.num_errors (dem : DetectorErrorModel) : Nat :=
  (dem.events.filter (fun e => e.type = "error")).length

/-- The `np.zeros((r, c))` allocation, as a row list. -/
def npZeros (r c : Nat) : List (List ℚ) :=
  List.replicate r (List.replicate c 0)

/-- A numpy element assignment `m[i, j] = v`, raising IndexError outside the
allocated shape. -/
def npSet (m : List (List ℚ)) (i j : Nat) (v : ℚ) :
    Except PyErr (List (List ℚ)) :=
  match m[i]? with
  | none => Except.error (.indexError "index out of bounds")
  | some row =>
    match row[j]? with
    | none => Except.error (.indexError "index out of bounds")
    | some _ => Except.ok (m.set i (row.set j v))

/-- The three outputs of the extractor: `parity_check`, `logical_check` and
`error_probabilities` of `CircuitUnderstander`. -/
structure CheckMatrices where
  parity_check : List (List ℚ)
  logical_check : List (List ℚ)
  error_probabilities : List ℚ
deriving DecidableEq, Repr

/-- One iteration of the `for idx, event in enumerate(dem)` loop of
`CircuitUnderstander._understand_circuit`: non-error events are skipped by
`continue`, but note that `idx` — the column written into both matrices —
is the enumeration index over all events, while a probability is appended
only for error events. -/
def understandStep (st : CheckMatrices) (ie : Nat × DemEvent) :
    Except PyErr CheckMatrices := do
  let (idx, event) := ie
  if event.type ≠ "error" then
    Except.ok st
  else do
    let detectors_trigged := event.targets.filterMap DemTarget.detectorVal
    let logicals_triggered :=
      (event.targets.filterMap DemTarget.observableVal).dedup
    let parity ← detectors_trigged.foldlM
      (fun m d => npSet m d idx 1) st.parity_check
    let logical ← logicals_triggered.foldlM
      (fun m o => npSet m o idx 1) st.logical_check
    match event.args with
    | [] => Except.error (.indexError "list index out of range")
    | p :: _ =>
      Except.ok ⟨parity, logical, st.error_probabilities ++ [p]⟩

/-- Embeds `CircuitUnderstander._understand_circuit`: allocate the
zero matrices with one column per error mechanism, then run the enumerated
event loop. -/
def understand_circuit (dem : DetectorErrorModel) :
    Except PyErr CheckMatrices :=
  dem.events.enum.foldlM understandStep
    ⟨npZeros dem.num_detectors dem.num_errors,
     npZeros dem.num_observables dem.num_errors, []⟩

/-- Embeds `check_if_noisy_circuit` (`_syndrome_sampler.py`): true iff some
instruction is a one- or two-qubit noise channel, or some measurement-gate
instruction has a positive gate argument. -/
def check_if_noisy_circuit (circuit : Circuit) : Bool :=
  circuit.any (fun instr =>
      instr.name ∈ OneQubitNoiseChannelsMembers ++ TwoQubitNoiseChannelsMembers) ||
  circuit.any (fun instr =>
      instr.name ∈ MeasurementGatesMembers && instr.args.any (fun x => 0 < x))

/-- The noise gate of `Sampler.__call__`: a circuit without noise entries
raises `NoNoiseInCircuitError` (a ValueError subclass carrying this
message); otherwise sampling is delegated to the external stim sampler,
abstracted here as a unit result. -/
def Sampler.call (circuit : Circuit) : Except PyErr Unit :=
  if ¬check_if_noisy_circuit circuit then
    Except.error (.valueError
      "Circuit passed has no noise; decoding will have no effect.")
  else
    Except.ok ()

/-! Concrete fixtures used by the claim theorems.  Probability literals are
built as already-reduced fractions so that they evaluate inside the kernel
(`p / q` on `ℚ` normalizes through `Nat.gcd`, which does not reduce
definitionally). -/

/-- The rational `1 / d` as a reduced fraction. -/
def oneOver (d : Nat) (hd : d ≠ 0 := by decide) : ℚ :=
  ⟨1, d, hd, Nat.coprime_one_left d⟩

/-- A QUBIT_COORDS declaration of qubit `q`. -/
def QC (q : Int) : Instruction := ⟨"QUBIT_COORDS", [q], []⟩

/-- The TICK timestep marker. -/
def TICK : Instruction := ⟨"TICK", [], []⟩

/-- A noise model whose every parameter is the scalar 0 (keyword defaults of
`NoiseModel.__init__` with all slots absent). -/
def zeroNoiseModel : NoiseModel :=
  ⟨"DEPOLARIZE2", .scalar 0, "DEPOLARIZE1", .scalar 0, "DEPOLARIZE1", .scalar 0,
   "DEPOLARIZE1", .scalar 0, 0⟩

/-- A noise model whose only nonzero slot is idle noise
`(Z_ERROR, 0.0025)`. -/
def idleNoiseModel : NoiseModel :=
  ⟨"DEPOLARIZE2", .scalar 0, "DEPOLARIZE1", .scalar 0, "DEPOLARIZE1", .scalar 0,
   "Z_ERROR", .scalar (oneOver 400), 0⟩

/-- A detector error model in which a non-error event (a `detector`
coordinate declaration) precedes the single error mechanism. -/
def demLeadingNonError : DetectorErrorModel :=
  ⟨[⟨"detector", [.detector 0], [0]⟩,
    ⟨"error", [.detector 0], [oneOver 10]⟩], 1, 0⟩

/-- The same detector error model with the error mechanism first. -/
def demErrorFirst : DetectorErrorModel :=
  ⟨[⟨"error", [.detector 0], [oneOver 10]⟩,
    ⟨"detector", [.detector 0], [0]⟩], 1, 0⟩

/-- A single layer in which qubit 0 is touched only by a structural
QUBIT_COORDS declaration while the only gate acts on qubit 1. -/
def coordsOnlyLayerCircuit : Circuit :=
  [QC 0, QC 1, ⟨"H", [1], []⟩, TICK]

/-- A circuit whose final layer `M 0` has no closing timestep marker. -/
def markerlessFinalLayerCircuit : Circuit :=
  [QC 0, QC 1, TICK, ⟨"M", [0], []⟩]

/-- Every noise slot of the model holds the scalar 0 and the
measurement-flip parameter is 0. -/
def NoiseModel.allZero (nm : NoiseModel) : Prop :=
  nm.two_qubit_gate_noise_parameter = .scalar 0 ∧
  nm.one_qubit_gate_noise_parameter = .scalar 0 ∧
  nm.reset_noise_parameter = .scalar 0 ∧
  nm.idle_noise_parameter = .scalar 0 ∧
  nm.measurement_noise_parameter = 0

/-- Every channel name of the model is drawn from the channel table legal
for its slot, as `_is_legal_noise_model` enforces at construction. -/
def NoiseModel.legalChannels (nm : NoiseModel) : Prop :=
  nm.two_qubit_gate_noise_channel ∈ TwoQubitNoiseChannelsMembers ∧
  nm.one_qubit_gate_noise_channel ∈ OneQubitNoiseChannelsMembers ∧
  nm.reset_noise_channel ∈ OneQubitNoiseChannelsMembers ∧
  nm.idle_noise_channel ∈ OneQubitNoiseChannelsMembers

/-- Modelled from the spec for comparison with the source transform: the
output that claim C2 predicts for an all-zero noise model, namely the input
circuit with each measurement instruction's argument set to 0 and nothing
else changed. -/
def setMeasurementArgsZeroSpec (c : Circuit) : Circuit :=
  c.map (fun i =>
    if i.name ∈ MeasurementGatesMembers then ⟨i.name, i.targets, [0]⟩ else i)

/-!  Theorems settling the claims. -/

/-- Helper: `get_circuit_layers` always returns at least one layer. -/
theorem get_circuit_layers_ne_nil (c : Circuit) : get_circuit_layers c ≠ [] := by
  cases c with
  | nil => simp [get_circuit_layers]
  | cons i rest =>
    unfold get_circuit_layers
    by_cases h : i.name = "TICK"
    · simp [h]
    · simp only [h, if_false]
      cases hL : get_circuit_layers rest with
      | nil => simp
      | cons l ls => simp

/-- Helper: concatenating the layers reproduces the input circuit. -/
theorem flatten_get_circuit_layers (c : Circuit) :
    (get_circuit_layers c).flatten = c := by
  induction c with
  | nil => rfl
  | cons i rest ih =>
    unfold get_circuit_layers
    by_cases h : i.name = "TICK"
    · simp [h, ih]
    · simp only [h, if_false]
      cases hL : get_circuit_layers rest with
      | nil => exact absurd hL (get_circuit_layers_ne_nil rest)
      | cons l ls =>
        rw [hL] at ih
        simp only [List.flatten_cons] at ih ⊢
        simp only [List.cons_append]
        rw [ih]

/-- Helper: shape of the layers — every layer before the last is a run of
non-TICK instructions closed by exactly one TICK, and the final layer
contains no TICK. -/
theorem get_circuit_layers_shape (c : Circuit) :
    (∀ l ∈ (get_circuit_layers c).dropLast,
        ∃ l0 t, l = l0 ++ [t] ∧ t.name = "TICK" ∧ ∀ j ∈ l0, j.name ≠ "TICK") ∧
    (∀ l, (get_circuit_layers c).getLast? = some l →
        ∀ j ∈ l, j.name ≠ "TICK") := by
  induction c with
  | nil =>
    refine ⟨by simp [get_circuit_layers], ?_⟩
    intro l hl j hj
    simp [get_circuit_layers] at hl
    subst hl
    simp at hj
  | cons i rest ih =>
    obtain ⟨ihDrop, ihLast⟩ := ih
    unfold get_circuit_layers
    by_cases h : i.name = "TICK"
    · simp only [h, if_true]
      cases hL : get_circuit_layers rest with
      | nil => exact absurd hL (get_circuit_layers_ne_nil rest)
      | cons l ls =>
        rw [hL] at ihDrop ihLast
        constructor
        · intro x hx
          rw [List.dropLast_cons_of_ne_nil (by simp)] at hx
          rcases List.mem_cons.mp hx with hx1 | hx2
          · exact ⟨[], i, by simp [hx1], h, by simp⟩
          · exact ihDrop x hx2
        · intro x hx
          rw [List.getLast?_cons_cons] at hx
          exact ihLast x hx
    · simp only [h, if_false]
      cases hL : get_circuit_layers rest with
      | nil => exact absurd hL (get_circuit_layers_ne_nil rest)
      | cons l ls =>
        rw [hL] at ihDrop ihLast
        cases ls with
        | nil =>
          constructor
          · intro x hx
            simp at hx
          · intro x hx j hj
            simp only [List.getLast?_singleton, Option.some_inj] at hx
            subst hx
            rcases List.mem_cons.mp hj with hj1 | hj2
            · subst hj1; exact h
            · exact ihLast l rfl j hj2
        | cons l2 ls2 =>
          constructor
          · intro x hx
            rw [List.dropLast_cons_of_ne_nil (by simp)] at hx
            rcases List.mem_cons.mp hx with hx1 | hx2
            · have hl : l ∈ (l :: l2 :: ls2).dropLast := by
                rw [List.dropLast_cons_of_ne_nil (by simp)]
                exact List.mem_cons_self l _
              obtain ⟨l0, t, hsplit, ht, hnotick⟩ := ihDrop l hl
              refine ⟨i :: l0, t, ?_, ht, ?_⟩
              · rw [hx1, hsplit]; rfl
              · intro j hj
                rcases List.mem_cons.mp hj with hj1 | hj2
                · subst hj1; exact h
                · exact hnotick j hj2
            · refine ihDrop x ?_
              rw [List.dropLast_cons_of_ne_nil (by simp)]
              exact List.mem_cons_of_mem l hx2
          · intro x hx
            rw [List.getLast?_cons_cons] at hx
            refine ihLast x ?_
            rw [List.getLast?_cons_cons]
            exact hx

/-- Claim C9: `get_circuit_layers` splits a circuit at TICK markers: every
layer except possibly the last consists of non-TICK instructions closed by
exactly one TICK as its final instruction, the final layer contains no
marker and is kept as the trailing remainder, layers appear in source
order, and concatenating all layers reproduces the original circuit. -/
theorem get_circuit_layers_spec (c : Circuit) :
    (get_circuit_layers c).flatten = c ∧
    (∀ l ∈ (get_circuit_layers c).dropLast,
        ∃ l0 t, l = l0 ++ [t] ∧ t.name = "TICK" ∧ ∀ j ∈ l0, j.name ≠ "TICK") ∧
    (∀ l, (get_circuit_layers c).getLast? = some l →
        ∀ j ∈ l, j.name ≠ "TICK") :=
  ⟨flatten_get_circuit_layers c, (get_circuit_layers_shape c).1,
   (get_circuit_layers_shape c).2⟩

/-- Claim C1: the extractor writes matrix entries at the enumeration index
over all detector-error-model events, but probabilities only for error
events, so a non-error event preceding an error event breaks the claimed
mechanism alignment: on a model whose single error mechanism follows a
`detector` coordinate event, the column index 1 overflows the one-column
matrices and the code raises IndexError instead of returning
`H = [[1]]`, `p = [0.1]` — which is exactly what it returns once the
non-error event is moved after the error. -/
theorem circuit_understander_misaligned_column_index :
    demLeadingNonError.num_errors = 1 ∧
    understand_circuit demLeadingNonError =
      Except.error (.indexError "index out of bounds") ∧
    understand_circuit demErrorFirst =
      Except.ok ⟨[[1]], [], [oneOver 10]⟩ :=
  ⟨rfl, rfl, rfl⟩

/-- Claim C3: the active-qubit scan of `add_idle_noise` filters on
`if instr.name`, which every instruction satisfies, so structural
instructions contribute their targets: in a layer where qubit 0 appears
only in a QUBIT_COORDS declaration and the only gate acts on qubit 1,
qubit 0 is counted active and no idle-noise instruction is inserted,
contrary to the claim that the idle set is Q minus the targets of
non-structural instructions only. -/
theorem add_idle_noise_counts_structural_targets :
    (0 : Int) ∈ activeQubits coordsOnlyLayerCircuit ∧
    idleNoiseModel.add_idle_noise coordsOnlyLayerCircuit =
      Except.ok coordsOnlyLayerCircuit :=
  ⟨by decide, rfl⟩

/-- Claim C4: for a final layer with no closing TICK, `add_idle_noise`
still splits off the layer's last instruction and re-appends it after the
idle-noise channel, so the channel is inserted immediately before the last
instruction (`M 0` here) instead of being appended after all of the
layer's instructions as the claim states. -/
theorem add_idle_noise_markerless_layer_insertion :
    idleNoiseModel.add_idle_noise markerlessFinalLayerCircuit =
      Except.ok [QC 0, QC 1, TICK,
                 ⟨"Z_ERROR", [1], [oneOver 400]⟩, ⟨"M", [0], []⟩] :=
  rfl

/-- Claim C6: `_is_legal_noise_model` tests the biased-channel tuple with
`len(_param) not in [3, 15]` for both biased channels, so PAULI_CHANNEL_1
with a length-15 tuple and PAULI_CHANNEL_2 with a length-3 tuple are both
accepted at construction time, contrary to the claim (and to the class
docstring) that each channel requires its exact length. -/
theorem pauli_channel_wrong_length_tuple_accepted :
    is_legal_noise_model none
        (some ("PAULI_CHANNEL_1", .tuple (List.replicate 15 0)))
        none none 0 = Except.ok () ∧
    is_legal_noise_model
        (some ("PAULI_CHANNEL_2", .tuple (List.replicate 3 0)))
        none none none 0 = Except.ok () ∧
    (NoiseModel.construct none
        (some ("PAULI_CHANNEL_1", .tuple (List.replicate 15 0)))
        none none 0).isOk = true :=
  ⟨rfl, rfl, rfl⟩

/-- Helper: the Boolean noise scan agrees with the claimed property. -/
theorem check_if_noisy_circuit_iff (c : Circuit) :
    check_if_noisy_circuit c = true ↔
      ((∃ i ∈ c, i.name ∈ OneQubitNoiseChannelsMembers ∨
          i.name ∈ TwoQubitNoiseChannelsMembers) ∨
       (∃ i ∈ c, i.name ∈ MeasurementGatesMembers ∧ ∃ a ∈ i.args, 0 < a)) := by
  simp [check_if_noisy_circuit, List.any_eq_true, List.mem_append]

/-- Claim C8: `Sampler.__call__` raises the no-noise ValueError exactly when
the circuit contains no one- or two-qubit noise-channel instruction and no
measurement-gate instruction with a positive argument; when such an entry
is present the call does not raise. -/
theorem sampler_raises_iff_noiseless (c : Circuit) :
    Sampler.call c =
      Except.error (.valueError
        "Circuit passed has no noise; decoding will have no effect.") ↔
      ¬((∃ i ∈ c, i.name ∈ OneQubitNoiseChannelsMembers ∨
           i.name ∈ TwoQubitNoiseChannelsMembers) ∨
        (∃ i ∈ c, i.name ∈ MeasurementGatesMembers ∧ ∃ a ∈ i.args, 0 < a)) := by
  rw [← check_if_noisy_circuit_iff]
  unfold Sampler.call
  by_cases h : check_if_noisy_circuit c = true
  · simp [h]
  · simp [h]

/-- Claim C5: inside the single pass of `permute_circuit`, an instruction in
the measure-and-reset table contributes exactly one measurement carrying
the measurement-flip parameter, one TICK, and one reset, in this order and
on the instruction's targets, for every noise model; the reset-noise
channel on the same targets follows exactly when the reset parameter is
truthy (a nonzero scalar, or a tuple — the Python truthiness test the
source uses for "nonzero"). -/
theorem measure_and_reset_block_shape (nm : NoiseModel) (acc : Circuit)
    (instr : Instruction) (h : instr.name = "MR") :
    nm.permuteStep acc instr =
      acc ++ [⟨"M", instr.targets, [nm.measurement_noise_parameter]⟩,
              ⟨"TICK", [], []⟩, ⟨"R", instr.targets, []⟩] ++
        (if nm.reset_noise_parameter.truthy then
          [⟨nm.reset_noise_channel, instr.targets,
            nm.reset_noise_parameter.toArgs⟩]
        else []) := by
  unfold NoiseModel.permuteStep
  have hmem : instr.name ∈ MeasureAndResetMembers := by
    simp [MeasureAndResetMembers, h]
  rw [if_pos hmem]
  unfold NoiseModel.measurement_and_reset_instruction
  by_cases ht : nm.reset_noise_parameter.truthy
  · simp [ht]
  · simp [ht]

/-- Witness for C5 at a concrete model with nonzero reset noise. -/
theorem measure_and_reset_block_shape_witness :
    (⟨"DEPOLARIZE2", .scalar 0, "DEPOLARIZE1", .scalar 0,
      "Y_ERROR", .scalar (oneOver 1000), "DEPOLARIZE1", .scalar 0,
      oneOver 100⟩ : NoiseModel).permuteStep [] ⟨"MR", [0, 1], []⟩ =
      [] ++ [⟨"M", [0, 1], [oneOver 100]⟩, ⟨"TICK", [], []⟩,
             ⟨"R", [0, 1], []⟩] ++
        (if (NoiseParam.scalar (oneOver 1000)).truthy then
          [⟨"Y_ERROR", [0, 1], (NoiseParam.scalar (oneOver 1000)).toArgs⟩]
        else []) :=
  measure_and_reset_block_shape _ [] ⟨"MR", [0, 1], []⟩ rfl

/-- Helper: the truthiness of the zero scalar parameter is false. -/
theorem truthy_scalar_zero : (NoiseParam.scalar 0).truthy = false := by
  simp [NoiseParam.truthy]

/-- Modelled from the spec for comparison with the source transform: the
per-instruction output of `permute_circuit` under an all-zero model as the
amended claim C2 describes it — measurement instructions keep their place
with argument 0, an MR instruction is split into measurement(0), TICK,
reset, and every other instruction passes through unchanged with no
trailing noise. -/
def zeroPermuteExpected (i : Instruction) : List Instruction :=
  if i.name = "MR" then
    [⟨"M", i.targets, [0]⟩, ⟨"TICK", [], []⟩, ⟨"R", i.targets, []⟩]
  else if i.name ∈ MeasurementGatesMembers then
    [⟨i.name, i.targets, [0]⟩]
  else
    [i]

/-- Helper: under an all-zero model one pass step appends exactly the
expected block. -/
theorem permuteStep_zero (nm : NoiseModel) (h : nm.allZero)
    (acc : Circuit) (i : Instruction) :
    nm.permuteStep acc i = acc ++ zeroPermuteExpected i := by
  obtain ⟨h2, h1, hr, hi, hm⟩ := h
  unfold NoiseModel.permuteStep zeroPermuteExpected
  by_cases hmr : i.name = "MR"
  · have hmem : i.name ∈ MeasureAndResetMembers := by
      simp [MeasureAndResetMembers, hmr]
    rw [if_pos hmem, if_pos hmr]
    unfold NoiseModel.measurement_and_reset_instruction
    rw [hr, hm, truthy_scalar_zero]
    simp
  · have hmem : i.name ∉ MeasureAndResetMembers := by
      simp [MeasureAndResetMembers, hmr]
    rw [if_neg hmem, if_neg hmr]
    by_cases hmg : i.name ∈ MeasurementGatesMembers
    · rw [if_pos hmg, if_pos hmg]
      unfold NoiseModel.measurement_instruction
      rw [if_neg hmr, hm]
    · rw [if_neg hmg, if_neg hmg]
      by_cases hsd : i.name ∈ StimDecoratorsMembers
      · rw [if_pos hsd]
      · rw [if_neg hsd]
        unfold NoiseModel.gate_instruction
        rw [h2, h1, hr, truthy_scalar_zero]
        simp

/-- Helper: under an all-zero model the full pass maps the circuit through
`zeroPermuteExpected`. -/
theorem permuteBody_zero (nm : NoiseModel) (h : nm.allZero) (c : Circuit) :
    ∀ acc : Circuit,
      List.foldl nm.permuteStep acc c = acc ++ c.flatMap zeroPermuteExpected := by
  induction c with
  | nil => intro acc; simp
  | cons i rest ih =>
    intro acc
    rw [List.foldl_cons, permuteStep_zero nm h, ih (acc ++ zeroPermuteExpected i)]
    simp

/-- Counterexample to claim C2 as stated: under the all-zero model, a
circuit consisting of one MR instruction is not mapped to itself with
measurement arguments zeroed — the MR instruction is split into
measurement, TICK, and reset (on either reading of which instructions
count as measurements). -/
theorem permute_zero_noise_mr_counterexample :
    zeroNoiseModel.allZero ∧
    zeroNoiseModel.permute_circuit [⟨"MR", [0], []⟩] =
      Except.ok [⟨"M", [0], [0]⟩, ⟨"TICK", [], []⟩, ⟨"R", [0], []⟩] ∧
    ([⟨"M", [0], [0]⟩, ⟨"TICK", [], []⟩, ⟨"R", [0], []⟩] : Circuit) ≠
      setMeasurementArgsZeroSpec [⟨"MR", [0], []⟩] ∧
    ([⟨"M", [0], [0]⟩, ⟨"TICK", [], []⟩, ⟨"R", [0], []⟩] : Circuit) ≠
      [⟨"MR", [0], [0]⟩] :=
  ⟨⟨rfl, rfl, rfl, rfl, rfl⟩, rfl, by decide, by decide⟩

/-- Claim C2 amended: under a model whose every slot is the scalar 0 and
whose measurement noise is 0, `permute_circuit` returns the input circuit
with each measurement instruction's argument set to 0 and each MR
instruction split into measurement(0), TICK, reset on the same targets;
no other instruction is added, removed, or reordered and no trailing
noise instruction is emitted. -/
theorem permute_zero_noise_amended (nm : NoiseModel) (c : Circuit)
    (h : nm.allZero) :
    nm.permute_circuit c = Except.ok (c.flatMap zeroPermuteExpected) := by
  unfold NoiseModel.permute_circuit NoiseModel.permuteBody
  rw [permuteBody_zero nm h c []]
  rw [h.2.2.2.1, truthy_scalar_zero]
  simp

/-- Witness for the amended C2 at a concrete all-zero model and circuit. -/
theorem permute_zero_noise_amended_witness :
    zeroNoiseModel.allZero ∧
    zeroNoiseModel.permute_circuit
        [QC 0, ⟨"H", [0], []⟩, ⟨"M", [0], [oneOver 100]⟩, ⟨"MR", [0], []⟩] =
      Except.ok (([QC 0, ⟨"H", [0], []⟩, ⟨"M", [0], [oneOver 100]⟩,
                   ⟨"MR", [0], []⟩] : Circuit).flatMap zeroPermuteExpected) :=
  ⟨⟨rfl, rfl, rfl, rfl, rfl⟩,
   permute_zero_noise_amended zeroNoiseModel _ ⟨rfl, rfl, rfl, rfl, rfl⟩⟩

/-- Helper: legal noise-channel names are never QUBIT_COORDS. -/
theorem legal_channel_ne_qubit_coords {s : String}
    (h : s ∈ OneQubitNoiseChannelsMembers ∨ s ∈ TwoQubitNoiseChannelsMembers) :
    s ≠ "QUBIT_COORDS" := by
  intro he
  subst he
  rcases h with h | h
  · exact absurd h (by decide)
  · exact absurd h (by decide)

/-- Helper: a block of instructions none of which is QUBIT_COORDS filters
to nothing. -/
theorem filter_qc_eq_nil (block : Circuit)
    (hb : ∀ j ∈ block, j.name ≠ "QUBIT_COORDS") :
    block.filter isQubitCoords = [] := by
  induction block with
  | nil => rfl
  | cons a l ih =>
    rw [List.filter_cons]
    have ha : isQubitCoords a = false := by
      simp [isQubitCoords, hb a (List.mem_cons_self a l)]
    rw [ha]
    exact ih (fun j hj => hb j (List.mem_cons_of_mem a hj))

/-- Helper: appending a QUBIT_COORDS-free block does not change the
QUBIT_COORDS sublist. -/
theorem filter_qc_append_none (acc block : Circuit)
    (hb : ∀ j ∈ block, j.name ≠ "QUBIT_COORDS") :
    (acc ++ block).filter isQubitCoords = acc.filter isQubitCoords := by
  rw [List.filter_append, filter_qc_eq_nil block hb, List.append_nil]

/-- Helper: one pass step preserves the sublist of QUBIT_COORDS
instructions — structural instructions pass through unchanged and every
instruction the pass creates carries a gate, TICK, or noise-channel name. -/
theorem permuteStep_filter_qc (nm : NoiseModel) (hch : nm.legalChannels)
    (acc : Circuit) (i : Instruction) :
    (nm.permuteStep acc i).filter isQubitCoords =
      acc.filter isQubitCoords ++ List.filter isQubitCoords [i] := by
  obtain ⟨hc2, hc1, hcr, hci⟩ := hch
  have hr : nm.reset_noise_channel ≠ "QUBIT_COORDS" :=
    legal_channel_ne_qubit_coords (Or.inl hcr)
  have h1 : nm.one_qubit_gate_noise_channel ≠ "QUBIT_COORDS" :=
    legal_channel_ne_qubit_coords (Or.inl hc1)
  have h2 : nm.two_qubit_gate_noise_channel ≠ "QUBIT_COORDS" :=
    legal_channel_ne_qubit_coords (Or.inr hc2)
  unfold NoiseModel.permuteStep
  by_cases hmr : i.name ∈ MeasureAndResetMembers
  · rw [if_pos hmr]
    have hqc : i.name ≠ "QUBIT_COORDS" := by
      simp only [MeasureAndResetMembers, List.mem_singleton] at hmr
      rw [hmr]
      decide
    have hionly : List.filter isQubitCoords [i] = [] :=
      filter_qc_eq_nil [i] (by intro j hj; rw [List.mem_singleton] at hj; rw [hj]; exact hqc)
    rw [hionly, List.append_nil]
    unfold NoiseModel.measurement_and_reset_instruction
    by_cases ht : nm.reset_noise_parameter.truthy = true
    · rw [if_pos ht, List.append_assoc]
      refine filter_qc_append_none acc _ ?_
      intro j hj
      simp only [List.append_assoc, List.cons_append, List.nil_append,
        List.mem_cons, List.not_mem_nil, or_false] at hj
      rcases hj with h | h | h | h
      · rw [h]; exact (by decide : ("M" : String) ≠ "QUBIT_COORDS")
      · rw [h]; exact (by decide : ("TICK" : String) ≠ "QUBIT_COORDS")
      · rw [h]; exact (by decide : ("R" : String) ≠ "QUBIT_COORDS")
      · rw [h]; exact hr
    · rw [if_neg ht]
      refine filter_qc_append_none acc _ ?_
      intro j hj
      simp only [List.mem_cons, List.not_mem_nil, or_false] at hj
      rcases hj with h | h | h
      · rw [h]; exact (by decide : ("M" : String) ≠ "QUBIT_COORDS")
      · rw [h]; exact (by decide : ("TICK" : String) ≠ "QUBIT_COORDS")
      · rw [h]; exact (by decide : ("R" : String) ≠ "QUBIT_COORDS")
  · rw [if_neg hmr]
    by_cases hmg : i.name ∈ MeasurementGatesMembers
    · rw [if_pos hmg]
      unfold NoiseModel.measurement_instruction
      have hne : i.name ≠ "MR" := by
        intro he
        exact hmr (by simp [MeasureAndResetMembers, he])
      have hqc : i.name ≠ "QUBIT_COORDS" := by
        intro he
        rw [he] at hmg
        exact absurd hmg (by decide)
      have hionly : List.filter isQubitCoords [i] = [] :=
        filter_qc_eq_nil [i]
          (by intro j hj; rw [List.mem_singleton] at hj; rw [hj]; exact hqc)
      rw [if_neg hne, hionly, List.append_nil]
      refine filter_qc_append_none acc _ ?_
      intro j hj
      rw [List.mem_singleton] at hj
      rw [hj]
      exact hqc
    · rw [if_neg hmg]
      by_cases hsd : i.name ∈ StimDecoratorsMembers
      · rw [if_pos hsd, List.filter_append]
      · rw [if_neg hsd]
        unfold NoiseModel.gate_instruction
        have step3 : ∀ x : Circuit,
            (if i.name ∈ ResetGatesMembers ∧
                nm.reset_noise_parameter.truthy = true then
              x ++ [⟨nm.reset_noise_channel, i.targets,
                     nm.reset_noise_parameter.toArgs⟩]
            else x).filter isQubitCoords = x.filter isQubitCoords := by
          intro x
          split
          · refine filter_qc_append_none x _ ?_
            intro j hj
            rw [List.mem_singleton] at hj
            rw [hj]
            exact hr
          · rfl
        have step2 : ∀ x : Circuit,
            (if i.name ∈ TwoQubitGatesMembers ∧
                nm.two_qubit_gate_noise_parameter.truthy = true then
              x ++ [⟨nm.two_qubit_gate_noise_channel, i.targets,
                     nm.two_qubit_gate_noise_parameter.toArgs⟩]
            else x).filter isQubitCoords = x.filter isQubitCoords := by
          intro x
          split
          · refine filter_qc_append_none x _ ?_
            intro j hj
            rw [List.mem_singleton] at hj
            rw [hj]
            exact h2
          · rfl
        have step1 : ∀ x : Circuit,
            (if i.name ∈ OneQubitGatesMembers ∧
                nm.one_qubit_gate_noise_parameter.truthy = true then
              x ++ [⟨nm.one_qubit_gate_noise_channel, i.targets,
                     nm.one_qubit_gate_noise_parameter.toArgs⟩]
            else x).filter isQubitCoords = x.filter isQubitCoords := by
          intro x
          split
          · refine filter_qc_append_none x _ ?_
            intro j hj
            rw [List.mem_singleton] at hj
            rw [hj]
            exact h1
          · rfl
        rw [step3, step2, step1, List.filter_append]

/-- Helper: the full pass preserves the sublist of QUBIT_COORDS
instructions. -/
theorem permuteBody_filter_qc (nm : NoiseModel) (hch : nm.legalChannels)
    (c : Circuit) :
    ∀ acc : Circuit,
      (List.foldl nm.permuteStep acc c).filter isQubitCoords =
        acc.filter isQubitCoords ++ c.filter isQubitCoords := by
  induction c with
  | nil => intro acc; simp
  | cons i rest ih =>
    intro acc
    rw [List.foldl_cons, ih, permuteStep_filter_qc nm hch]
    by_cases h : isQubitCoords i <;> simp [h, List.filter_cons]

/-- Helper: `mapM firstTarget` succeeds, with one entry per line, on lines
that all have targets. -/
theorem mapM_firstTarget_ok (L : List Instruction)
    (h : ∀ i ∈ L, i.targets ≠ []) :
    ∃ l, L.mapM firstTarget = Except.ok l ∧ l.length = L.length := by
  induction L with
  | nil => exact ⟨[], rfl, rfl⟩
  | cons a as ih =>
    obtain ⟨l, hl, hlen⟩ := ih (fun i hi => h i (List.mem_cons_of_mem a hi))
    obtain ⟨t, ts, hts⟩ :=
      List.exists_cons_of_ne_nil (h a (List.mem_cons_self a as))
    refine ⟨t :: l, ?_, by simp [hlen]⟩
    rw [List.mapM_cons, hl]
    unfold firstTarget
    rw [hts]
    rfl

/-- Helper: `add_idle_noise` succeeds exactly when the circuit has a
QUBIT_COORDS instruction, provided every QUBIT_COORDS instruction has at
least one target. -/
theorem add_idle_noise_ok_iff (nm : NoiseModel) (c : Circuit)
    (hwf : ∀ i ∈ c, isQubitCoords i = true → i.targets ≠ []) :
    (c.filter isQubitCoords = [] →
        nm.add_idle_noise c = Except.error (.valueError
          "You must define qubit entries for idle noise to be applied, otherwise stim has no way of knowing how many qubits are involved in the experiment. Add QUBIT_COORDS commands to the beginning of the circuit.")) ∧
    (c.filter isQubitCoords ≠ [] → (nm.add_idle_noise c).isOk = true) := by
  obtain ⟨l, hl, hlen⟩ := mapM_firstTarget_ok (c.filter isQubitCoords)
    (fun i hi => hwf i (List.mem_of_mem_filter hi) (List.of_mem_filter hi))
  unfold NoiseModel.add_idle_noise qubitCoordFirstTargets
  rw [hl]
  constructor
  · intro hnil
    rw [hnil] at hlen
    have hl0 : l = [] := by simpa using hlen
    subst hl0
    rfl
  · intro hne
    have hlne : l ≠ [] := by
      intro he
      rw [he] at hlen
      simp only [List.length_nil] at hlen
      exact hne (List.eq_nil_of_length_eq_zero hlen.symm)
    have hd : l.dedup ≠ [] := by
      simpa [List.dedup_eq_nil] using hlne
    simp only [Except.bind, bind]
    rw [if_neg hd]
    rfl

/-- Claim C7: with a truthy idle-noise parameter and a legal noise model,
`permute_circuit` raises the declared-qubits ValueError exactly on circuits
with no QUBIT_COORDS instruction, and succeeds on circuits that declare at
least one qubit; the input circuit is never written to (the embedding is a
pure function of it).  Each QUBIT_COORDS instruction is assumed to carry a
target, as a qubit declaration must. -/
theorem permute_idle_requires_qubit_coords (nm : NoiseModel) (c : Circuit)
    (hch : nm.legalChannels)
    (hidle : nm.idle_noise_parameter.truthy = true)
    (hwf : ∀ i ∈ c, i.name = "QUBIT_COORDS" → i.targets ≠ []) :
    ((∀ i ∈ c, i.name ≠ "QUBIT_COORDS") →
        nm.permute_circuit c = Except.error (.valueError
          "You must define qubit entries for idle noise to be applied, otherwise stim has no way of knowing how many qubits are involved in the experiment. Add QUBIT_COORDS commands to the beginning of the circuit.")) ∧
    ((∃ i ∈ c, i.name = "QUBIT_COORDS") →
        (nm.permute_circuit c).isOk = true) := by
  have hfilter : (nm.permuteBody c).filter isQubitCoords =
      c.filter isQubitCoords := by
    simpa [NoiseModel.permuteBody] using permuteBody_filter_qc nm hch c []
  have hwfn : ∀ i ∈ nm.permuteBody c, isQubitCoords i = true →
      i.targets ≠ [] := by
    intro i hi hqc
    have hmem : i ∈ (nm.permuteBody c).filter isQubitCoords :=
      List.mem_filter.mpr ⟨hi, hqc⟩
    rw [hfilter] at hmem
    refine hwf i (List.mem_of_mem_filter hmem) ?_
    simpa [isQubitCoords] using List.of_mem_filter hmem
  obtain ⟨herr, hok⟩ := add_idle_noise_ok_iff nm (nm.permuteBody c) hwfn
  have hpc : nm.permute_circuit c = nm.add_idle_noise (nm.permuteBody c) := by
    unfold NoiseModel.permute_circuit
    rw [if_pos hidle]
  rw [hpc]
  constructor
  · intro hnone
    exact herr (by rw [hfilter]; exact filter_qc_eq_nil c hnone)
  · rintro ⟨i, hi, hqc⟩
    refine hok ?_
    rw [hfilter]
    intro hcontra
    have hmem : i ∈ c.filter isQubitCoords :=
      List.mem_filter.mpr ⟨hi, by simp [isQubitCoords, hqc]⟩
    rw [hcontra] at hmem
    exact List.not_mem_nil i hmem

/-- Witness for C7 at a concrete legal model with truthy idle noise: the
circuit declares qubit 0, so both conjuncts apply (the first vacuously). -/
theorem permute_idle_requires_qubit_coords_witness :
    ((∀ i ∈ ([QC 0, ⟨"H", [1], []⟩, TICK] : Circuit),
        i.name ≠ "QUBIT_COORDS") →
      idleNoiseModel.permute_circuit [QC 0, ⟨"H", [1], []⟩, TICK] =
        Except.error (.valueError
          "You must define qubit entries for idle noise to be applied, otherwise stim has no way of knowing how many qubits are involved in the experiment. Add QUBIT_COORDS commands to the beginning of the circuit.")) ∧
    ((∃ i ∈ ([QC 0, ⟨"H", [1], []⟩, TICK] : Circuit),
        i.name = "QUBIT_COORDS") →
      (idleNoiseModel.permute_circuit [QC 0, ⟨"H", [1], []⟩, TICK]).isOk =
        true) :=
  permute_idle_requires_qubit_coords idleNoiseModel _
    ⟨by decide, by decide, by decide, by decide⟩ (by decide) (by decide)

/-- Helper: legal noise-channel names are never MR. -/
theorem legal_channel_ne_mr {s : String}
    (h : s ∈ OneQubitNoiseChannelsMembers ∨ s ∈ TwoQubitNoiseChannelsMembers) :
    s ≠ "MR" := by
  intro he
  subst he
  rcases h with h | h
  · exact absurd h (by decide)
  · exact absurd h (by decide)

/-- Helper: every instruction of `gate_instruction`'s output is from the
input circuit or carries one of the model's noise-channel names. -/
theorem gate_instruction_mem (nm : NoiseModel) (acc : Circuit)
    (i j : Instruction) (hj : j ∈ nm.gate_instruction acc i) :
    j ∈ acc ∨ j.name = nm.one_qubit_gate_noise_channel ∨
      j.name = nm.two_qubit_gate_noise_channel ∨
      j.name = nm.reset_noise_channel := by
  unfold NoiseModel.gate_instruction at hj
  by_cases hg1 : i.name ∈ OneQubitGatesMembers ∧
      nm.one_qubit_gate_noise_parameter.truthy = true <;>
    by_cases hg2 : i.name ∈ TwoQubitGatesMembers ∧
        nm.two_qubit_gate_noise_parameter.truthy = true <;>
      by_cases hg3 : i.name ∈ ResetGatesMembers ∧
          nm.reset_noise_parameter.truthy = true <;>
        simp only [hg1, hg2, hg3, if_true, if_false, ite_true, ite_false,
          List.mem_append, List.mem_singleton] at hj <;>
        aesop

/-- Helper: one pass step emits no instruction named MR. -/
theorem permuteStep_no_mr (nm : NoiseModel) (hch : nm.legalChannels)
    (acc : Circuit) (i : Instruction)
    (hacc : ∀ k ∈ acc, k.name ≠ "MR") :
    ∀ k ∈ nm.permuteStep acc i, k.name ≠ "MR" := by
  obtain ⟨hc2, hc1, hcr, hci⟩ := hch
  intro k hk
  unfold NoiseModel.permuteStep at hk
  by_cases hmr : i.name ∈ MeasureAndResetMembers
  · rw [if_pos hmr] at hk
    unfold NoiseModel.measurement_and_reset_instruction at hk
    by_cases ht : nm.reset_noise_parameter.truthy = true
    · rw [if_pos ht] at hk
      rcases List.mem_append.mp hk with hk | hk
      · rcases List.mem_append.mp hk with hk | hk
        · exact hacc k hk
        · simp only [List.mem_cons, List.not_mem_nil, or_false] at hk
          rcases hk with h | h | h
          · rw [h]; exact (by decide : ("M" : String) ≠ "MR")
          · rw [h]; exact (by decide : ("TICK" : String) ≠ "MR")
          · rw [h]; exact (by decide : ("R" : String) ≠ "MR")
      · rw [List.mem_singleton] at hk
        rw [hk]
        exact legal_channel_ne_mr (Or.inl hcr)
    · rw [if_neg ht] at hk
      rcases List.mem_append.mp hk with hk | hk
      · exact hacc k hk
      · simp only [List.mem_cons, List.not_mem_nil, or_false] at hk
        rcases hk with h | h | h
        · rw [h]; exact (by decide : ("M" : String) ≠ "MR")
        · rw [h]; exact (by decide : ("TICK" : String) ≠ "MR")
        · rw [h]; exact (by decide : ("R" : String) ≠ "MR")
  · rw [if_neg hmr] at hk
    by_cases hmg : i.name ∈ MeasurementGatesMembers
    · rw [if_pos hmg] at hk
      unfold NoiseModel.measurement_instruction at hk
      have hne : i.name ≠ "MR" := by
        intro he
        exact hmr (by simp [MeasureAndResetMembers, he])
      rw [if_neg hne] at hk
      rcases List.mem_append.mp hk with hk | hk
      · exact hacc k hk
      · rw [List.mem_singleton] at hk
        rw [hk]
        exact hne
    · rw [if_neg hmg] at hk
      have hne : i.name ≠ "MR" := by
        intro he
        exact hmr (by simp [MeasureAndResetMembers, he])
      by_cases hsd : i.name ∈ StimDecoratorsMembers
      · rw [if_pos hsd] at hk
        rcases List.mem_append.mp hk with hk | hk
        · exact hacc k hk
        · rw [List.mem_singleton] at hk
          rw [hk]
          exact hne
      · rw [if_neg hsd] at hk
        rcases gate_instruction_mem nm _ i k hk with h | h | h | h
        · rcases List.mem_append.mp h with h1 | h1
          · exact hacc k h1
          · rw [List.mem_singleton] at h1
            rw [h1]
            exact hne
        · rw [h]; exact legal_channel_ne_mr (Or.inl hc1)
        · rw [h]; exact legal_channel_ne_mr (Or.inr hc2)
        · rw [h]; exact legal_channel_ne_mr (Or.inl hcr)

/-- Helper: the full pass emits no instruction named MR. -/
theorem permuteBody_no_mr (nm : NoiseModel) (hch : nm.legalChannels)
    (c : Circuit) :
    ∀ acc, (∀ k ∈ acc, k.name ≠ "MR") →
      ∀ k ∈ List.foldl nm.permuteStep acc c, k.name ≠ "MR" := by
  induction c with
  | nil => intro acc hacc k hk; exact hacc k hk
  | cons i rest ih =>
    intro acc hacc k hk
    rw [List.foldl_cons] at hk
    exact ih _ (permuteStep_no_mr nm hch acc i hacc) k hk

/-- Helper: every instruction emitted by one idle-noise layer step is from
the accumulator, from the layer itself, or is the idle channel. -/
theorem idleStep_mem (nm : NoiseModel) (qi : List Int) (acc ts : Circuit)
    (j : Instruction) (hj : j ∈ nm.idleStep qi acc ts) :
    j ∈ acc ∨ j ∈ ts ∨ j.name = nm.idle_noise_channel := by
  cases ts with
  | nil =>
    unfold NoiseModel.idleStep at hj
    rw [if_pos rfl] at hj
    exact Or.inl hj
  | cons a as =>
    unfold NoiseModel.idleStep at hj
    rw [if_neg (by simp)] at hj
    simp only [ne_eq] at hj
    split at hj
    · rcases List.mem_append.mp hj with hj | hj
      · rcases List.mem_append.mp hj with hj | hj
        · rcases List.mem_append.mp hj with hj | hj
          · exact Or.inl hj
          · exact Or.inr (Or.inl ((List.dropLast_sublist (a :: as)).subset hj))
        · rw [List.mem_singleton] at hj
          rw [hj]
          exact Or.inr (Or.inr rfl)
      · cases hgl : (a :: as).getLast? with
        | none => rw [hgl] at hj; simp at hj
        | some t =>
          rw [hgl] at hj
          simp at hj
          rw [hj]
          exact Or.inr (Or.inl (List.mem_of_mem_getLast? hgl))
    · rcases List.mem_append.mp hj with hj | hj
      · exact Or.inl hj
      · exact Or.inr (Or.inl hj)

/-- Helper: every instruction of the folded idle-noise pass is from the
accumulator, from one of the layers, or is the idle channel. -/
theorem foldl_idleStep_mem (nm : NoiseModel) (qi : List Int)
    (layers : List Circuit) :
    ∀ acc j, j ∈ List.foldl (nm.idleStep qi) acc layers →
      j ∈ acc ∨ (∃ l ∈ layers, j ∈ l) ∨ j.name = nm.idle_noise_channel := by
  induction layers with
  | nil => intro acc j hj; exact Or.inl hj
  | cons t ts ih =>
    intro acc j hj
    rcases ih _ j hj with h | h | h
    · rcases idleStep_mem nm qi acc t j h with h1 | h1 | h1
      · exact Or.inl h1
      · exact Or.inr (Or.inl ⟨t, List.mem_cons_self t ts, h1⟩)
      · exact Or.inr (Or.inr h1)
    · obtain ⟨l, hl, hjl⟩ := h
      exact Or.inr (Or.inl ⟨l, List.mem_cons_of_mem t hl, hjl⟩)
    · exact Or.inr (Or.inr h)

/-- Helper: on success, every instruction of `add_idle_noise`'s output is
from the input circuit or is the idle channel. -/
theorem add_idle_noise_mem (nm : NoiseModel) (c out : Circuit)
    (h : nm.add_idle_noise c = Except.ok out) :
    ∀ j ∈ out, j ∈ c ∨ j.name = nm.idle_noise_channel := by
  unfold NoiseModel.add_idle_noise at h
  cases hq : qubitCoordFirstTargets c with
  | error e => rw [hq] at h; cases h
  | ok l =>
    rw [hq] at h
    simp only [Except.bind, bind] at h
    by_cases hd : l.dedup = []
    · rw [if_pos hd] at h; cases h
    · rw [if_neg hd] at h
      have hout : List.foldl (nm.idleStep l.dedup) [] (get_circuit_layers c) =
          out := by
        cases h
        rfl
      intro j hj
      rw [← hout] at hj
      rcases foldl_idleStep_mem nm l.dedup (get_circuit_layers c) [] j hj
        with h0 | h0 | h0
      · exact absurd h0 (List.not_mem_nil j)
      · obtain ⟨lay, hlay, hjl⟩ := h0
        have hfl : j ∈ (get_circuit_layers c).flatten :=
          List.mem_flatten.mpr ⟨lay, hlay, hjl⟩
        rw [flatten_get_circuit_layers] at hfl
        exact Or.inl hfl
      · exact Or.inr h0

/-- Claim C10: for every legal noise model, a successful `permute_circuit`
returns a circuit with no MR instruction: the pass replaces each MR by
separate measurement and reset instructions, and the idle-noise pass only
inserts noise-channel instructions. -/
theorem permute_output_mr_free (nm : NoiseModel) (c : Circuit)
    (hch : nm.legalChannels) :
    ∀ out, nm.permute_circuit c = Except.ok out → ∀ j ∈ out, j.name ≠ "MR" := by
  intro out hout j hj
  have hbody : ∀ k ∈ nm.permuteBody c, k.name ≠ "MR" := by
    intro k hk
    exact permuteBody_no_mr nm hch c [] (by intro k0 hk0; cases hk0) k hk
  unfold NoiseModel.permute_circuit at hout
  by_cases hidle : nm.idle_noise_parameter.truthy = true
  · rw [if_pos hidle] at hout
    rcases add_idle_noise_mem nm _ out hout j hj with h | h
    · exact hbody j h
    · rw [h]
      exact legal_channel_ne_mr (Or.inl hch.2.2.2)
  · rw [if_neg hidle] at hout
    have hbo : nm.permuteBody c = out := by
      cases hout
      rfl
    rw [← hbo] at hj
    exact hbody j hj

/-- Witness for C10 at a concrete legal model with idle noise and a circuit
containing an MR instruction. -/
theorem permute_output_mr_free_witness :
    List.all ([⟨"QUBIT_COORDS", [0], []⟩, ⟨"QUBIT_COORDS", [1], []⟩,
               ⟨"TICK", [], []⟩, ⟨"M", [0], [0]⟩,
               ⟨"Z_ERROR", [1], [oneOver 400]⟩, ⟨"TICK", [], []⟩,
               ⟨"Z_ERROR", [1], [oneOver 400]⟩, ⟨"R", [0], []⟩] : Circuit)
      (fun j => j.name ≠ "MR") = true := by
  have h := permute_output_mr_free idleNoiseModel
    [QC 0, QC 1, TICK, ⟨"MR", [0], []⟩]
    ⟨by decide, by decide, by decide, by decide⟩ _ rfl
  rw [List.all_eq_true]
  intro j hj
  exact decide_eq_true (h j hj)

end Dotg
